import Mathlib

/-!
Shallow embedding of the expense-reimbursement approval workflow engine:
the Expense/Company data model (backend/models, `src/unnamed/part_002`),
the rule engine (`getApprovalPercentage`, `checkApprovalCriteria`),
the approval state machine (`POST /api/approvals/:id/approve`,
`POST /api/approvals/:id/reject` in `backend/routes/approvals.js`),
chain construction (`setupApprovalFlow` in the expenses router) and the
pending-expense update handler (`PUT /api/expenses/:id`).

Mongo ObjectIds are modelled as `Nat`, role strings as `String`,
monetary amounts and percentages as `Rat` (JS numbers used only through
arithmetic and comparisons here), dates as `Nat` ticks.
-/

namespace ExpenseSystem

/-- Status of one approval step (`approvalFlow[i].status` enum). -/
inductive StepStatus
  | pending
  | approved
  | rejected
  | skipped
deriving DecidableEq, Repr

/-- Status of the whole expense (`expense.status` enum). -/
inductive ExpStatus
  | pending
  | approved
  | rejected
  | partiallyApproved
deriving DecidableEq, Repr

/-- A populated approver reference: user id plus the role string that
`populate('approvalFlow.approver', 'role')` attaches. -/
structure UserRef where
  id : Nat
  role : String
deriving DecidableEq, Repr

/-- One slot of `expense.approvalFlow`. -/
structure ApprovalStep where
  approver : UserRef
  order : Nat
  status : StepStatus
  comments : String
  timestamp : Option Nat
deriving DecidableEq, Repr

/-- One entry of `expense.approvalHistory`. -/
structure HistoryEntry where
  approver : Nat
  action : String
  comments : String
  timestamp : Nat
deriving DecidableEq, Repr

/-- The Expense aggregate (fields relevant to the workflow engine). -/
structure Expense where
  amount : Rat
  convertedAmount : Rat
  category : String
  description : String
  expenseDate : Nat
  status : ExpStatus
  currentApprover : Option Nat
  approvalHistory : List HistoryEntry
  approvalFlow : List ApprovalStep
deriving DecidableEq, Repr

/-- `company.settings.approvalRules.percentageRule`. -/
structure PercentageRule where
  enabled : Bool
  percentage : Rat
deriving DecidableEq, Repr

/-- `company.settings.approvalRules.specificApproverRule`. -/
structure SpecificApproverRule where
  enabled : Bool
  approverRole : String
deriving DecidableEq, Repr

/-- `company.settings.approvalRules.hybridRule`. -/
structure HybridRule where
  enabled : Bool
  percentage : Rat
  specificRole : String
deriving DecidableEq, Repr

/-- `company.settings.approvalRules`. -/
structure ApprovalRules where
  percentageRule : PercentageRule
  specificApproverRule : SpecificApproverRule
  hybridRule : HybridRule
deriving DecidableEq, Repr

/-- `company.settings.thresholds`. -/
structure Thresholds where
  managerApproval : Rat
  financeApproval : Rat
  directorApproval : Rat
deriving DecidableEq, Repr

/-- `company.settings`. -/
structure CompanySettings where
  approvalRules : ApprovalRules
  thresholds : Thresholds
deriving DecidableEq, Repr

/-! ## Rule engine (Expense model methods, `src/unnamed/part_002`) -/

/-- `expenseSchema.methods.getApprovalPercentage`:
`approvedCount / totalApprovers * 100`, and `0` when the flow is empty. -/
def getApprovalPercentage (flow : List ApprovalStep) : Rat :=
  let totalApprovers := flow.length
  let approvedCount := (flow.filter (fun f => f.status == StepStatus.approved)).length
  if totalApprovers > 0 then ((approvedCount : Rat) / (totalApprovers : Rat)) * 100 else 0

/-- `expenseSchema.methods.checkApprovalCriteria`: sequential checks of the
percentage rule, the specific-approver rule and the hybrid rule, returning
`true` at the first satisfied enabled rule and `false` otherwise. -/
def checkApprovalCriteria (flow : List ApprovalStep) (settings : ApprovalRules) : Bool :=
  let approvalPercentage := getApprovalPercentage flow
  if settings.percentageRule.enabled &&
      decide (approvalPercentage ≥ settings.percentageRule.percentage) then
    true
  else if settings.specificApproverRule.enabled &&
      (flow.any (fun f =>
        f.approver.role == settings.specificApproverRule.approverRole &&
        f.status == StepStatus.approved)) then
    true
  else if settings.hybridRule.enabled &&
      ((flow.any (fun f =>
          f.approver.role == settings.hybridRule.specificRole &&
          f.status == StepStatus.approved)) ||
        decide (approvalPercentage ≥ settings.hybridRule.percentage)) then
    true
  else
    false

/-! ## Approval state machine (`backend/routes/approvals.js`) -/

/-- Outcomes of the approve/reject HTTP handlers other than success:
403 "not authorized" (wrong approver), 400 "no pending approval found"
(late or duplicate action), 400 validation failure (empty rejection
comments), and the 500 "Server error" produced when
`expense.currentApprover.toString()` throws on a null `currentApprover`. -/
inductive ActionError
  | authorizationError
  | stateError
  | validationError
  | serverError
deriving DecidableEq, Repr

/-- `Array.prototype.find` followed by in-place mutation of the found
element: returns the original first element satisfying `p` together with
the list in which that element, and only it, is replaced by `upd` of it. -/
def updateFirst (p : ApprovalStep → Bool) (upd : ApprovalStep → ApprovalStep) :
    List ApprovalStep → Option (ApprovalStep × List ApprovalStep)
  | [] => none
  | f :: rest =>
    if p f then
      some (f, upd f :: rest)
    else
      match updateFirst p upd rest with
      | none => none
      | some (s, rest') => some (s, f :: rest')

/-- `POST /api/approvals/:id/approve`: authorization check against
`currentApprover`, mutation of the actor's pending step, history append,
`checkApprovalCriteria`, advance to the next pending step of greater order,
and the inline chain-exhaustion re-check of the percentage and
specific-approver rules. -/
def approveExpense (e : Expense) (settings : ApprovalRules) (userId : Nat)
    (comments : String) (now : Nat) : Except ActionError Expense :=
  match e.currentApprover with
  | none => .error .serverError
  | some cur =>
    if cur == userId then
      match updateFirst
          (fun f => f.approver.id == userId && f.status == StepStatus.pending)
          (fun f => { f with status := StepStatus.approved, comments := comments,
                             timestamp := some now }) e.approvalFlow with
      | none => .error .stateError
      | some (currentApproval, updatedFlow) =>
        let e1 : Expense :=
          { e with approvalFlow := updatedFlow,
                   approvalHistory := e.approvalHistory ++
                     [⟨userId, "approved", comments, now⟩] }
        if checkApprovalCriteria updatedFlow settings then
          .ok { e1 with status := ExpStatus.approved, currentApprover := none }
        else
          match updatedFlow.find? (fun f =>
              f.status == StepStatus.pending && f.order > currentApproval.order) with
          | some nextApproval =>
            .ok { e1 with currentApprover := some nextApproval.approver.id }
          | none =>
            let approvalPercentage := getApprovalPercentage updatedFlow
            if settings.percentageRule.enabled &&
                decide (approvalPercentage ≥ settings.percentageRule.percentage) then
              .ok { e1 with status := ExpStatus.approved, currentApprover := none }
            else if settings.specificApproverRule.enabled then
              if updatedFlow.any (fun f =>
                  f.approver.role == settings.specificApproverRule.approverRole &&
                  f.status == StepStatus.approved) then
                .ok { e1 with status := ExpStatus.approved, currentApprover := none }
              else
                .ok e1
            else
              .ok { e1 with status := ExpStatus.approved, currentApprover := none }
    else .error .authorizationError

/-- `POST /api/approvals/:id/reject`: non-empty comments validation,
authorization check, mutation of the actor's pending step, history append,
then unconditionally `status = rejected`, `currentApprover = null`. -/
def rejectExpense (e : Expense) (userId : Nat) (comments : String)
    (now : Nat) : Except ActionError Expense :=
  if comments.isEmpty then .error .validationError
  else
    match e.currentApprover with
    | none => .error .serverError
    | some cur =>
      if cur == userId then
        match updateFirst
            (fun f => f.approver.id == userId && f.status == StepStatus.pending)
            (fun f => { f with status := StepStatus.rejected, comments := comments,
                               timestamp := some now }) e.approvalFlow with
        | none => .error .stateError
        | some (_, updatedFlow) =>
          .ok { e with approvalFlow := updatedFlow,
                       approvalHistory := e.approvalHistory ++
                         [⟨userId, "rejected", comments, now⟩],
                       status := ExpStatus.rejected,
                       currentApprover := none }
      else .error .authorizationError

/-! ## Chain construction (`setupApprovalFlow` in the expenses router) -/

/-- A user document as stored in the directory (`User` collection fields
used by `setupApprovalFlow`). -/
structure DirUser where
  id : Nat
  role : String
  company : Nat
  isManagerApprover : Bool
  manager : Option Nat
deriving DecidableEq, Repr

/-- `User.findById`. -/
def findById (users : List DirUser) (i : Nat) : Option DirUser :=
  users.find? (fun u => u.id == i)

/-- `User.findOne({company, role: 'manager', isManagerApprover: true})`. -/
def findFinanceManager (users : List DirUser) (companyId : Nat) : Option DirUser :=
  users.find? (fun u => u.company == companyId && u.role == "manager" && u.isManagerApprover)

/-- `User.findOne({company, role: 'admin'})`. -/
def findAdmin (users : List DirUser) (companyId : Nat) : Option DirUser :=
  users.find? (fun u => u.company == companyId && u.role == "admin")

/-- The amount-threshold and fallback phase of `setupApprovalFlow`: a
finance-manager step when the converted amount reaches the finance
threshold (skipped when that user is already the current approver), an
admin step when it reaches the director threshold (same skip rule), and an
admin fallback when the chain is still empty, continuing from the manager
phase's flow and current approver. -/
def addThresholdSteps (users : List DirUser) (companyId : Nat)
    (settings : CompanySettings) (convertedAmount : Rat)
    (flow1 : List ApprovalStep) (cur1 : Option Nat) :
    List ApprovalStep × Option Nat :=
  let order2 := flow1.length + 1
  let (flow2, cur2, order3) : List ApprovalStep × Option Nat × Nat :=
    if convertedAmount ≥ settings.thresholds.financeApproval then
      match findFinanceManager users companyId with
      | some fm =>
        if (match cur1 with | some c => fm.id != c | none => true) then
          (flow1 ++ [⟨⟨fm.id, fm.role⟩, order2, StepStatus.pending, "", none⟩],
           (match cur1 with | some c => some c | none => some fm.id), order2 + 1)
        else (flow1, cur1, order2)
      | none => (flow1, cur1, order2)
    else (flow1, cur1, order2)
  let (flow3, cur3) : List ApprovalStep × Option Nat :=
    if convertedAmount ≥ settings.thresholds.directorApproval then
      match findAdmin users companyId with
      | some d =>
        if (match cur2 with | some c => d.id != c | none => true) then
          (flow2 ++ [⟨⟨d.id, d.role⟩, order3, StepStatus.pending, "", none⟩],
           (match cur2 with | some c => some c | none => some d.id))
        else (flow2, cur2)
      | none => (flow2, cur2)
    else (flow2, cur2)
  if flow3.length == 0 then
    match findAdmin users companyId with
    | some admin => ([⟨⟨admin.id, admin.role⟩, 1, StepStatus.pending, "", none⟩], some admin.id)
    | none => ([], none)
  else (flow3, cur3)

/-- `setupApprovalFlow(expense, user, company)`: manager step at order 1
when `user.manager` is set and `user.isManagerApprover`, then the
amount-threshold steps and admin fallback of `addThresholdSteps`. Returns
the flow and the initial `currentApprover`. -/
def setupApprovalFlow (users : List DirUser) (user : DirUser) (companyId : Nat)
    (settings : CompanySettings) (convertedAmount : Rat) :
    List ApprovalStep × Option Nat :=
  let fc : List ApprovalStep × Option Nat :=
    match user.manager with
    | some mid =>
      if user.isManagerApprover then
        match findById users mid with
        | some m => ([⟨⟨m.id, m.role⟩, 1, StepStatus.pending, "", none⟩], some m.id)
        | none => ([], none)
      else ([], none)
    | none => ([], none)
  addThresholdSteps users companyId settings convertedAmount fc.1 fc.2

/-- `POST /api/expenses`: the created expense as persisted by the handler —
status pending, empty history, flow and current approver from
`setupApprovalFlow` (the handler saves the expense whatever that returns). -/
def createExpense (users : List DirUser) (user : DirUser) (companyId : Nat)
    (settings : CompanySettings) (amount convertedAmount : Rat)
    (category description : String) (expenseDate : Nat) : Expense :=
  let fc := setupApprovalFlow users user companyId settings convertedAmount
  { amount := amount
    convertedAmount := convertedAmount
    category := category
    description := description
    expenseDate := expenseDate
    status := ExpStatus.pending
    currentApprover := fc.2
    approvalHistory := []
    approvalFlow := fc.1 }

/-! ## Pending-expense update (`PUT /api/expenses/:id`) -/

/-- `PUT /api/expenses/:id` after the permission check: rejected unless the
expense is pending; otherwise amount (with re-conversion), category,
description and expense date are overwritten when supplied. `convert` is
the currency conversion applied to a new amount. -/
def updateExpense (e : Expense) (amount : Option Rat) (category : Option String)
    (description : Option String) (expenseDate : Option Nat)
    (convert : Rat → Rat) : Except ActionError Expense :=
  if e.status != ExpStatus.pending then .error .stateError
  else
    let e1 := match amount with
      | some a => { e with amount := a, convertedAmount := convert a }
      | none => e
    let e2 := match category with
      | some c => { e1 with category := c }
      | none => e1
    let e3 := match description with
      | some d => { e2 with description := d }
      | none => e2
    let e4 := match expenseDate with
      | some d => { e3 with expenseDate := d }
      | none => e3
    .ok e4

/-! ## Reachable expense states -/

/-- Expense states reachable through creation, approval and rejection.
Creation requires the user directory to have distinct ids (database
identity integrity); company settings may differ between actions, as each
handler re-reads the company document. -/
inductive Reachable : Expense → Prop
  | create (users : List DirUser) (user : DirUser) (companyId : Nat)
      (settings : CompanySettings) (amount convertedAmount : Rat)
      (category description : String) (expenseDate : Nat)
      (hids : (users.map DirUser.id).Nodup) :
      Reachable (createExpense users user companyId settings amount convertedAmount
        category description expenseDate)
  | approve (e : Expense) (settings : ApprovalRules) (userId : Nat)
      (comments : String) (now : Nat) (e' : Expense) (he : Reachable e)
      (hstep : approveExpense e settings userId comments now = .ok e') :
      Reachable e'
  | reject (e : Expense) (userId : Nat) (comments : String) (now : Nat)
      (e' : Expense) (he : Reachable e)
      (hstep : rejectExpense e userId comments now = .ok e') :
      Reachable e'

/-! ## Lemmas about `updateFirst` and `List.find?` -/

theorem updateFirst_eq_some {p : ApprovalStep → Bool} {upd : ApprovalStep → ApprovalStep}
    {l : List ApprovalStep} {s : ApprovalStep} {l' : List ApprovalStep}
    (h : updateFirst p upd l = some (s, l')) :
    ∃ l1 l2, l = l1 ++ s :: l2 ∧ l' = l1 ++ upd s :: l2 ∧
      (∀ f ∈ l1, p f = false) ∧ p s = true := by
  induction l generalizing l' with
  | nil => simp [updateFirst] at h
  | cons a as ih =>
    rw [updateFirst] at h
    by_cases hp : p a
    · rw [if_pos hp] at h
      obtain ⟨h1, h2⟩ := Prod.mk.injEq .. ▸ Option.some.injEq .. ▸ h
      refine ⟨[], as, by simp [h1], by rw [← h2, h1, List.nil_append], by simp, h1 ▸ hp⟩
    · rw [if_neg hp] at h
      cases hrec : updateFirst p upd as with
      | none => rw [hrec] at h; cases h
      | some pr =>
        obtain ⟨s0, as'⟩ := pr
        rw [hrec] at h
        obtain ⟨h1, h2⟩ := Prod.mk.injEq .. ▸ Option.some.injEq .. ▸ h
        obtain ⟨l1, l2, e1, e2, hl1, hps⟩ := ih (h1 ▸ hrec)
        refine ⟨a :: l1, l2, by simp [e1], by simp [← h2, e2], ?_, hps⟩
        intro f hf
        rcases List.mem_cons.mp hf with rfl | hf2
        · exact Bool.eq_false_iff.mpr hp
        · exact hl1 f hf2

theorem updateFirst_eq_none {p : ApprovalStep → Bool} {upd : ApprovalStep → ApprovalStep}
    {l : List ApprovalStep} (h : ∀ f ∈ l, p f = false) :
    updateFirst p upd l = none := by
  induction l with
  | nil => rfl
  | cons a as ih =>
    rw [updateFirst, if_neg (by simp [h a (by simp)]),
      ih (fun f hf => h f (List.mem_cons_of_mem _ hf))]

theorem find?_eq_some_decomp {p : ApprovalStep → Bool} {l : List ApprovalStep}
    {a : ApprovalStep} (h : l.find? p = some a) :
    ∃ l1 l2, l = l1 ++ a :: l2 ∧ (∀ x ∈ l1, p x = false) ∧ p a = true := by
  induction l with
  | nil => cases h
  | cons b bs ih =>
    rw [List.find?] at h
    by_cases hp : p b
    · rw [hp] at h
      cases h
      exact ⟨[], bs, rfl, by simp, hp⟩
    · rw [Bool.eq_false_iff.mpr hp] at h
      obtain ⟨l1, l2, e1, hl1, hpa⟩ := ih h
      refine ⟨b :: l1, l2, by simp [e1], ?_, hpa⟩
      intro f hf
      rcases List.mem_cons.mp hf with rfl | hf2
      · exact Bool.eq_false_iff.mpr hp
      · exact hl1 f hf2

theorem updateFirst_map_eq {p : ApprovalStep → Bool} {upd : ApprovalStep → ApprovalStep}
    {l : List ApprovalStep} {s : ApprovalStep} {l' : List ApprovalStep} {β : Type}
    (h : updateFirst p upd l = some (s, l')) (g : ApprovalStep → β)
    (hg : ∀ f, g (upd f) = g f) : l'.map g = l.map g := by
  obtain ⟨l1, l2, e1, e2, -, -⟩ := updateFirst_eq_some h
  simp [e1, e2, hg]

/-- Approver ids of a flow, in order. -/
def approverIds (flow : List ApprovalStep) : List Nat :=
  flow.map (fun f => f.approver.id)

theorem eq_of_mem_of_approverId_eq {l : List ApprovalStep}
    (h : (approverIds l).Nodup) {a b : ApprovalStep}
    (ha : a ∈ l) (hb : b ∈ l) (hab : a.approver.id = b.approver.id) : a = b :=
  List.inj_on_of_nodup_map h ha hb hab

/-! ## Claim theorems: rule engine -/

theorem checkApprovalCriteria_eq_or (flow : List ApprovalStep)
    (settings : ApprovalRules) :
    checkApprovalCriteria flow settings =
      ((settings.percentageRule.enabled &&
         decide (getApprovalPercentage flow ≥ settings.percentageRule.percentage)) ||
       (settings.specificApproverRule.enabled &&
         (flow.any fun f => f.approver.role == settings.specificApproverRule.approverRole &&
           f.status == StepStatus.approved)) ||
       (settings.hybridRule.enabled &&
         ((flow.any fun f => f.approver.role == settings.hybridRule.specificRole &&
             f.status == StepStatus.approved) ||
          decide (getApprovalPercentage flow ≥ settings.hybridRule.percentage)))) := by
  simp only [checkApprovalCriteria]
  cases hA : (settings.percentageRule.enabled &&
      decide (getApprovalPercentage flow ≥ settings.percentageRule.percentage)) <;>
  cases hB : (settings.specificApproverRule.enabled &&
      (flow.any fun f => f.approver.role == settings.specificApproverRule.approverRole &&
        f.status == StepStatus.approved)) <;>
  cases hC : (settings.hybridRule.enabled &&
      ((flow.any fun f => f.approver.role == settings.hybridRule.specificRole &&
          f.status == StepStatus.approved) ||
       decide (getApprovalPercentage flow ≥ settings.hybridRule.percentage))) <;>
  simp [hA, hB, hC]

/-- C3. Rule OR-composition: `checkApprovalCriteria` returns true iff at
least one enabled rule is satisfied — the percentage rule (enabled and
`approvalPercentage ≥ percentage`), the specific-approver rule (enabled and
some Approved step whose approver's role equals `approverRole`), or the
hybrid rule (enabled and either percentage reached or some Approved step's
approver role equals `specificRole`) — and it returns false when no rule
is enabled. -/
theorem checkApprovalCriteria_or_composition (flow : List ApprovalStep)
    (settings : ApprovalRules) :
    (checkApprovalCriteria flow settings = true ↔
      ((settings.percentageRule.enabled = true ∧
        getApprovalPercentage flow ≥ settings.percentageRule.percentage) ∨
       (settings.specificApproverRule.enabled = true ∧
        ∃ f ∈ flow, f.approver.role = settings.specificApproverRule.approverRole ∧
          f.status = StepStatus.approved) ∨
       (settings.hybridRule.enabled = true ∧
        ((∃ f ∈ flow, f.approver.role = settings.hybridRule.specificRole ∧
           f.status = StepStatus.approved) ∨
         getApprovalPercentage flow ≥ settings.hybridRule.percentage)))) ∧
    (settings.percentageRule.enabled = false →
      settings.specificApproverRule.enabled = false →
      settings.hybridRule.enabled = false →
      checkApprovalCriteria flow settings = false) := by
  constructor
  · rw [checkApprovalCriteria_eq_or]
    simp only [Bool.or_eq_true, Bool.and_eq_true, List.any_eq_true, beq_iff_eq,
      decide_eq_true_eq, ge_iff_le]
    exact or_assoc
  · intro h1 h2 h3
    rw [checkApprovalCriteria_eq_or]
    simp [h1, h2, h3]

/-- C9. `approvalPercentage` equals (Approved count) / (total count) × 100,
is 0 on the empty flow, and appending one more Approved step never
decreases it. -/
theorem approvalPercentage_monotone :
    (∀ flow : List ApprovalStep,
      getApprovalPercentage flow =
        if flow.length = 0 then 0
        else (((flow.filter fun f => f.status == StepStatus.approved).length : Rat) /
              (flow.length : Rat)) * 100) ∧
    getApprovalPercentage [] = 0 ∧
    (∀ (flow : List ApprovalStep) (s : ApprovalStep), s.status = StepStatus.approved →
      getApprovalPercentage flow ≤ getApprovalPercentage (flow ++ [s])) := by
  refine ⟨?_, by simp [getApprovalPercentage], ?_⟩
  · intro flow
    unfold getApprovalPercentage
    rcases Nat.eq_zero_or_pos flow.length with h | h
    · simp [h]
    · simp [h, Nat.pos_iff_ne_zero.mp h]
  · intro flow s hs
    have hfil : (flow ++ [s]).filter (fun f => f.status == StepStatus.approved) =
        flow.filter (fun f => f.status == StepStatus.approved) ++ [s] := by
      simp [List.filter_append, hs]
    set a := (flow.filter fun f => f.status == StepStatus.approved).length with ha
    set n := flow.length with hn
    have hlen : (flow ++ [s]).length = n + 1 := by simp [hn]
    have haf : ((flow ++ [s]).filter fun f => f.status == StepStatus.approved).length
        = a + 1 := by rw [hfil]; simp [ha]
    have hale : a ≤ n := List.length_filter_le _ flow
    unfold getApprovalPercentage
    rw [hlen, haf, ← ha, ← hn]
    rcases Nat.eq_zero_or_pos n with h0 | hpos
    · have ha0 : a = 0 := Nat.le_zero.mp (h0 ▸ hale)
      rw [h0, ha0]
      norm_num
    · have hnr : (0 : Rat) < (n : Rat) := by exact_mod_cast hpos
      have hnr1 : (0 : Rat) < (n : Rat) + 1 := by linarith
      have har : (a : Rat) ≤ (n : Rat) := by exact_mod_cast hale
      rw [if_pos hpos, if_pos (Nat.succ_pos n)]
      push_cast
      have key : (a : Rat) / (n : Rat) ≤ ((a : Rat) + 1) / ((n : Rat) + 1) := by
        rw [div_le_div_iff₀ hnr hnr1]
        nlinarith
      nlinarith [key]

/-! ## Concrete fixtures -/

/-- Company policy with only the specific-approver rule enabled (role CFO,
the schema default). -/
def specOnlyRules : ApprovalRules := ⟨⟨false, 60⟩, ⟨true, "CFO"⟩, ⟨false, 60, "CFO"⟩⟩

/-- Company policy with no completion rule enabled. -/
def noRules : ApprovalRules := ⟨⟨false, 60⟩, ⟨false, "CFO"⟩, ⟨false, 60, "CFO"⟩⟩

/-- The schema-default thresholds. -/
def defaultThresholds : Thresholds := ⟨1000, 5000, 10000⟩

/-- Directory for the single-manager scenario: employee 1 reports to
manager 10 and `isManagerApprover` is set. -/
def soloDir : List DirUser :=
  [⟨1, "employee", 7, true, some 10⟩, ⟨10, "manager", 7, true, none⟩]

/-- The submitting employee of the single-manager scenario. -/
def soloEmployee : DirUser := ⟨1, "employee", 7, true, some 10⟩

/-- A small expense by employee 1: its chain is the single step
[manager 10 @ order 1]. -/
def soloExpense : Expense :=
  createExpense soloDir soloEmployee 7 ⟨specOnlyRules, defaultThresholds⟩
    100 100 "meals" "d" 0

/-- The state the approve handler persists after manager 10 approves
`soloExpense` under `specOnlyRules`: the chain is exhausted, no rule
matched, and the handler's specific-approver branch has no else — the
expense stays pending with `currentApprover` still manager 10. -/
def stuckExpense : Expense :=
  { amount := 100, convertedAmount := 100, category := "meals", description := "d",
    expenseDate := 0, status := ExpStatus.pending, currentApprover := some 10,
    approvalHistory := [⟨10, "approved", "ok", 5⟩],
    approvalFlow := [⟨⟨10, "manager"⟩, 1, StepStatus.approved, "ok", some 5⟩] }

/-! ## Claim theorems: chain construction examples -/

/-- Directory for the chain-builder example: employee 1 reports to
manager 2 (`isManagerApprover` on both); user 3 is the finance approver the
`findOne` query resolves (first manager-role `isManagerApprover` user in
collection order), distinct from the manager; user 4 is an admin. -/
def exampleDir : List DirUser :=
  [⟨1, "employee", 7, true, some 2⟩, ⟨3, "manager", 7, true, none⟩,
   ⟨2, "manager", 7, true, none⟩, ⟨4, "admin", 7, false, none⟩]

/-- The submitting employee of the chain-builder example. -/
def exampleEmployee : DirUser := ⟨1, "employee", 7, true, some 2⟩

/-- C5. ChainBuilder example: converted amount 6000 with thresholds
financeApproval = 5000 and directorApproval = 10000, a manager with
`isManagerApprover`, and a distinct resolvable finance approver yield
exactly [manager @ 1, financeApprover @ 2], both Pending, with
`currentApprover` the manager. -/
theorem setupApprovalFlow_example :
    setupApprovalFlow exampleDir exampleEmployee 7 ⟨noRules, defaultThresholds⟩ 6000 =
      ([⟨⟨2, "manager"⟩, 1, StepStatus.pending, "", none⟩,
        ⟨⟨3, "manager"⟩, 2, StepStatus.pending, "", none⟩], some 2) := by
  decide

/-- Directory with no admin user: the chain-builder fallback cannot
resolve any approver. -/
def noAdminDir : List DirUser := [⟨1, "employee", 7, false, none⟩]

/-- The submitting employee of the no-admin scenario. -/
def noAdminEmployee : DirUser := ⟨1, "employee", 7, false, none⟩

/-- C7. The code persists a chain-less expense: when steps 1–3 produce no
step and no admin resolves for the fallback, `setupApprovalFlow` silently
leaves the flow empty and `currentApprover` null, and the create handler
saves the expense anyway — there is no ConfigurationError path. -/
theorem create_persists_chainless :
    findAdmin noAdminDir 7 = none ∧
    createExpense noAdminDir noAdminEmployee 7 ⟨noRules, defaultThresholds⟩
        100 100 "meals" "d" 0 =
      { amount := 100, convertedAmount := 100, category := "meals", description := "d",
        expenseDate := 0, status := ExpStatus.pending, currentApprover := none,
        approvalHistory := [], approvalFlow := [] } := by
  decide

/-- C1 counterexample: manager 10 approves the one-step `soloExpense` under
a policy whose only enabled rule (specific approver CFO) is unsatisfied;
the chain is exhausted and the final re-check matches no enabled rule, yet
the persisted state is Pending with `currentApprover` still manager 10 —
not Approved with `currentApprover = null` as the claim states. -/
theorem approve_exhaustion_stalls_cex :
    approveExpense soloExpense specOnlyRules 10 "ok" 5 = .ok stuckExpense ∧
    checkApprovalCriteria stuckExpense.approvalFlow specOnlyRules = false ∧
    (stuckExpense.approvalFlow.all fun f => f.status != StepStatus.pending) = true ∧
    stuckExpense.status = ExpStatus.pending ∧
    stuckExpense.currentApprover = some 10 :=
  ⟨rfl, by decide, by decide, rfl, rfl⟩

/-! ## Claim theorems: reject (veto), update (frame), failure modes -/

/-- C2. Veto dominance: under any policy configuration, one Reject by the
current approver on their pending step marks that step Rejected, appends a
rejected history entry, and immediately sets the expense Rejected with
`currentApprover = null` — the reject handler never consults the rules. -/
theorem reject_veto (settings : ApprovalRules) (e : Expense) (u : Nat)
    (c : String) (t : Nat) (s : ApprovalStep) (flow' : List ApprovalStep)
    (hc : c.isEmpty = false)
    (hcur : e.currentApprover = some u)
    (hupd : updateFirst (fun f => f.approver.id == u && f.status == StepStatus.pending)
        (fun f => { f with status := StepStatus.rejected, comments := c,
                           timestamp := some t }) e.approvalFlow = some (s, flow')) :
    rejectExpense e u c t = .ok
      { e with approvalFlow := flow',
               approvalHistory := e.approvalHistory ++ [⟨u, "rejected", c, t⟩],
               status := ExpStatus.rejected, currentApprover := none } ∧
    ∃ l1 l2, e.approvalFlow = l1 ++ s :: l2 ∧ s.approver.id = u ∧
      s.status = StepStatus.pending ∧
      flow' = l1 ++ ({ s with status := StepStatus.rejected, comments := c,
                              timestamp := some t } : ApprovalStep) :: l2 := by
  constructor
  · unfold rejectExpense
    simp only [hc, Bool.false_eq_true, if_false, hcur, beq_self_eq_true, if_true, hupd]
  · obtain ⟨l1, l2, e1, e2, hl1, hps⟩ := updateFirst_eq_some hupd
    rw [Bool.and_eq_true, beq_iff_eq, beq_iff_eq] at hps
    exact ⟨l1, l2, e1, hps.1, hps.2, e2⟩

/-- The single pending step of `soloExpense`. -/
def soloStep : ApprovalStep := ⟨⟨10, "manager"⟩, 1, StepStatus.pending, "", none⟩

/-- That step after manager 10 rejects with comment "no" at time 3. -/
def soloRejStep : ApprovalStep := ⟨⟨10, "manager"⟩, 1, StepStatus.rejected, "no", some 3⟩

/-- Witness for C2: the veto evaluated on the concrete `soloExpense`. -/
theorem reject_veto_witness :
    rejectExpense soloExpense 10 "no" 3 = .ok
      { soloExpense with
          approvalFlow := [soloRejStep],
          approvalHistory := [⟨10, "rejected", "no", 3⟩],
          status := ExpStatus.rejected, currentApprover := none } ∧
    ∃ l1 l2, soloExpense.approvalFlow = l1 ++ soloStep :: l2 ∧
      soloStep.approver.id = 10 ∧ soloStep.status = StepStatus.pending ∧
      [soloRejStep] = l1 ++ ({ soloStep with status := StepStatus.rejected,
                                             comments := "no",
                                             timestamp := some 3 } : ApprovalStep) :: l2 :=
  reject_veto specOnlyRules soloExpense 10 "no" 3 soloStep [soloRejStep] rfl rfl rfl

/-- C10. Frame property of Update: a successful update of a pending
expense rewrites only amount/convertedAmount/category/description/
expenseDate; approvalFlow, currentApprover, status and approvalHistory are
untouched for every conversion function, including amounts that would
cross any threshold. -/
theorem update_frame (e : Expense) (amount : Option Rat) (category : Option String)
    (description : Option String) (expenseDate : Option Nat) (convert : Rat → Rat)
    (hst : e.status = ExpStatus.pending) :
    ∃ e', updateExpense e amount category description expenseDate convert = .ok e' ∧
      e'.approvalFlow = e.approvalFlow ∧ e'.currentApprover = e.currentApprover ∧
      e'.status = e.status ∧ e'.approvalHistory = e.approvalHistory := by
  unfold updateExpense
  rw [hst, if_neg (by decide)]
  refine ⟨_, rfl, ?_, ?_, ?_, ?_⟩ <;>
    rcases amount with _ | a <;> rcases category with _ | c <;>
    rcases description with _ | d <;> rcases expenseDate with _ | t <;> simp [hst]

/-- Witness for C10: updating `soloExpense`'s amount to 20000 (crossing
both the finance and director thresholds) leaves the chain untouched. -/
theorem update_frame_witness :
    ∃ e', updateExpense soloExpense (some 20000) none none none (fun a => a) = .ok e' ∧
      e'.approvalFlow = soloExpense.approvalFlow ∧
      e'.currentApprover = soloExpense.currentApprover ∧
      e'.status = soloExpense.status ∧
      e'.approvalHistory = soloExpense.approvalHistory :=
  update_frame soloExpense (some 20000) none none none (fun a => a) rfl

/-- C8 corrected: late, duplicate or unauthorized actions all fail without
persisting anything, but with three distinct errors — 403 authorization
error when the actor is not `currentApprover`, 400 state error when the
actor has no pending step, and a 500 server error (a TypeError on
`null.toString()`) when `currentApprover` is null, as on any terminal
expense. -/
theorem action_failure_modes (e : Expense) (settings : ApprovalRules)
    (u : Nat) (c : String) (t : Nat) (hc : c.isEmpty = false) :
    (e.currentApprover = none →
      approveExpense e settings u c t = .error .serverError ∧
      rejectExpense e u c t = .error .serverError) ∧
    (∀ v, e.currentApprover = some v → v ≠ u →
      approveExpense e settings u c t = .error .authorizationError ∧
      rejectExpense e u c t = .error .authorizationError) ∧
    (e.currentApprover = some u →
      (∀ f ∈ e.approvalFlow, f.approver.id = u → f.status ≠ StepStatus.pending) →
      approveExpense e settings u c t = .error .stateError ∧
      rejectExpense e u c t = .error .stateError) := by
  refine ⟨?_, ?_, ?_⟩
  · intro hnone
    constructor
    · unfold approveExpense
      rw [hnone]
    · unfold rejectExpense
      simp only [hc, Bool.false_eq_true, if_false, hnone]
  · intro v hv hne
    have hbe : (v == u) = false := by
      rw [Bool.eq_false_iff]
      simpa using hne
    constructor
    · unfold approveExpense
      rw [hv]
      simp only [hbe, Bool.false_eq_true, if_false]
    · unfold rejectExpense
      simp only [hc, Bool.false_eq_true, if_false, hv, hbe]
  · intro hu hnopending
    have hupd : ∀ upd : ApprovalStep → ApprovalStep,
        updateFirst (fun f => f.approver.id == u && f.status == StepStatus.pending)
          upd e.approvalFlow = none := fun upd =>
      updateFirst_eq_none (fun f hf => by
        rw [Bool.eq_false_iff]
        intro hpf
        rw [Bool.and_eq_true, beq_iff_eq, beq_iff_eq] at hpf
        exact hnopending f hf hpf.1 hpf.2)
    constructor
    · unfold approveExpense
      rw [hu]
      simp only [beq_self_eq_true, if_true, hupd]
    · unfold rejectExpense
      simp only [hc, Bool.false_eq_true, if_false, hu, beq_self_eq_true, if_true, hupd]

/-- `soloExpense` after reaching a terminal state (currentApprover null). -/
def terminalSolo : Expense :=
  { soloExpense with status := ExpStatus.approved, currentApprover := none }

/-- Witness for C8 (amended): the three failure modes evaluated
concretely — on a terminal copy of `soloExpense`, on a wrong actor, and on
the re-approval of the already-approved `stuckExpense` step. -/
theorem action_failure_modes_witness :
    (approveExpense terminalSolo specOnlyRules 10 "x" 0 = .error .serverError ∧
      rejectExpense terminalSolo 10 "x" 0 = .error .serverError) ∧
    (approveExpense soloExpense specOnlyRules 2 "x" 0 = .error .authorizationError ∧
      rejectExpense soloExpense 2 "x" 0 = .error .authorizationError) ∧
    (approveExpense stuckExpense specOnlyRules 10 "x" 0 = .error .stateError ∧
      rejectExpense stuckExpense 10 "x" 0 = .error .stateError) :=
  ⟨(action_failure_modes terminalSolo specOnlyRules 10 "x" 0 rfl).1 rfl,
   (action_failure_modes soloExpense specOnlyRules 2 "x" 0 rfl).2.1 10 rfl (by decide),
   (action_failure_modes stuckExpense specOnlyRules 10 "x" 0 rfl).2.2 rfl
     (by decide)⟩

/-- C8 counterexample: an approve attempt by user 2, who is not the current
approver of `soloExpense`, fails with the 403 authorization error — not
the StateError the claim assigns to every such failure. -/
theorem wrong_approver_not_state_error_cex :
    approveExpense soloExpense specOnlyRules 2 "x" 0 =
      .error ActionError.authorizationError ∧
    ActionError.authorizationError ≠ ActionError.stateError :=
  ⟨rfl, by decide⟩

/-! ## Claim theorems: approve branches -/

/-- C1 corrected: when the approval exhausts the chain (no pending step of
greater order) and the final re-check matches no enabled rule, the expense
is default-approved (`status = approved`, `currentApprover = null`) only
when the specific-approver rule is disabled; when that rule is enabled the
handler's re-check has no else branch, so the expense stays as updated —
status untouched (Pending) and `currentApprover` still the acting user. -/
theorem approve_exhaustion_behaviour (e : Expense) (settings : ApprovalRules)
    (u : Nat) (c : String) (t : Nat) (s : ApprovalStep) (flow' : List ApprovalStep)
    (hcur : e.currentApprover = some u)
    (hupd : updateFirst (fun f => f.approver.id == u && f.status == StepStatus.pending)
        (fun f => { f with status := StepStatus.approved, comments := c,
                           timestamp := some t }) e.approvalFlow = some (s, flow'))
    (hcrit : checkApprovalCriteria flow' settings = false)
    (hnext : flow'.find? (fun f => f.status == StepStatus.pending &&
        f.order > s.order) = none) :
    (settings.specificApproverRule.enabled = false →
      approveExpense e settings u c t = .ok
        { e with approvalFlow := flow',
                 approvalHistory := e.approvalHistory ++ [⟨u, "approved", c, t⟩],
                 status := ExpStatus.approved, currentApprover := none }) ∧
    (settings.specificApproverRule.enabled = true →
      approveExpense e settings u c t = .ok
        { e with approvalFlow := flow',
                 approvalHistory := e.approvalHistory ++ [⟨u, "approved", c, t⟩] }) := by
  have habc := (checkApprovalCriteria_eq_or flow' settings).symm.trans hcrit
  rw [Bool.or_eq_false_iff, Bool.or_eq_false_iff] at habc
  obtain ⟨⟨hA, hB⟩, -⟩ := habc
  constructor
  · intro hspec
    unfold approveExpense
    rw [hcur]
    simp only [beq_self_eq_true, if_true, hupd, hcrit, Bool.false_eq_true, if_false,
      hnext, hA, hspec]
  · intro hspec
    rw [hspec, Bool.true_and] at hB
    unfold approveExpense
    rw [hcur]
    simp only [beq_self_eq_true, if_true, hupd, hcrit, Bool.false_eq_true, if_false,
      hnext, hA, hspec, hB, if_true]

/-- Witness for C1 (amended), at the concrete stalled scenario: with the
specific-approver rule enabled and unmatched, approving the sole step of
`soloExpense` leaves it Pending with `currentApprover` still manager 10. -/
theorem approve_exhaustion_behaviour_witness :
    (specOnlyRules.specificApproverRule.enabled = false →
      approveExpense soloExpense specOnlyRules 10 "ok" 5 = .ok
        { soloExpense with
            approvalFlow := [⟨⟨10, "manager"⟩, 1, StepStatus.approved, "ok", some 5⟩],
            approvalHistory := [⟨10, "approved", "ok", 5⟩],
            status := ExpStatus.approved, currentApprover := none }) ∧
    (specOnlyRules.specificApproverRule.enabled = true →
      approveExpense soloExpense specOnlyRules 10 "ok" 5 = .ok
        { soloExpense with
            approvalFlow := [⟨⟨10, "manager"⟩, 1, StepStatus.approved, "ok", some 5⟩],
            approvalHistory := [⟨10, "approved", "ok", 5⟩] }) :=
  approve_exhaustion_behaviour soloExpense specOnlyRules 10 "ok" 5 soloStep
    [⟨⟨10, "manager"⟩, 1, StepStatus.approved, "ok", some 5⟩] rfl rfl (by decide) rfl

/-- C4. Advance-to-next: when the approval does not satisfy the completion
rules but a pending step of strictly greater order exists, and step orders
strictly increase along the flow (as built by `setupApprovalFlow`), the
expense stays Pending and `currentApprover` becomes the approver of the
pending step with the smallest order greater than the just-approved one. -/
theorem approve_advances_to_next (e : Expense) (settings : ApprovalRules)
    (u : Nat) (c : String) (t : Nat) (s nxt : ApprovalStep) (flow' : List ApprovalStep)
    (hsorted : e.approvalFlow.Pairwise (fun f g => f.order < g.order))
    (hst : e.status = ExpStatus.pending)
    (hcur : e.currentApprover = some u)
    (hupd : updateFirst (fun f => f.approver.id == u && f.status == StepStatus.pending)
        (fun f => { f with status := StepStatus.approved, comments := c,
                           timestamp := some t }) e.approvalFlow = some (s, flow'))
    (hcrit : checkApprovalCriteria flow' settings = false)
    (hnext : flow'.find? (fun f => f.status == StepStatus.pending &&
        f.order > s.order) = some nxt) :
    approveExpense e settings u c t = .ok
      { e with approvalFlow := flow',
               approvalHistory := e.approvalHistory ++ [⟨u, "approved", c, t⟩],
               currentApprover := some nxt.approver.id } ∧
    ({ e with approvalFlow := flow',
              approvalHistory := e.approvalHistory ++ [⟨u, "approved", c, t⟩],
              currentApprover := some nxt.approver.id } : Expense).status
      = ExpStatus.pending ∧
    nxt ∈ flow' ∧ nxt.status = StepStatus.pending ∧ s.order < nxt.order ∧
    (∀ f ∈ flow', f.status = StepStatus.pending → s.order < f.order →
      nxt.order ≤ f.order) := by
  obtain ⟨A, B, hAB, hA, hpnxt⟩ := find?_eq_some_decomp hnext
  have hnxt' : nxt.status = StepStatus.pending ∧ s.order < nxt.order := by
    simpa using hpnxt
  have hmap : flow'.map (fun f => f.order) = e.approvalFlow.map (fun f => f.order) :=
    updateFirst_map_eq hupd _ (fun f => rfl)
  have hsorted' : flow'.Pairwise (fun f g => f.order < g.order) := by
    have h1 : (e.approvalFlow.map (fun f => f.order)).Pairwise (· < ·) :=
      (List.pairwise_map).mpr hsorted
    rw [← hmap] at h1
    exact (List.pairwise_map).mp h1
  refine ⟨?_, hst, by rw [hAB]; simp, hnxt'.1, hnxt'.2, ?_⟩
  · unfold approveExpense
    rw [hcur]
    simp only [beq_self_eq_true, if_true, hupd, hcrit, Bool.false_eq_true, if_false,
      hnext]
  · intro f hf hp ho
    have hpred : (f.status == StepStatus.pending && decide (f.order > s.order)) = true := by
      simp [hp, ho]
    rw [hAB] at hf hsorted'
    rcases List.mem_append.mp hf with hfA | hfnb
    · rw [hA f hfA] at hpred
      cases hpred
    · rcases List.mem_cons.mp hfnb with rfl | hfB
      · exact le_refl _
      · have hpair := (List.pairwise_append.mp hsorted').2.1
        exact le_of_lt ((List.pairwise_cons.mp hpair).1 f hfB)

/-- Witness for C4: a two-step chain (managers 10 then 11), no rule
enabled; approving step 1 moves `currentApprover` to manager 11 and the
expense stays Pending. -/
theorem approve_advances_to_next_witness :
    approveExpense
      { soloExpense with
          approvalFlow := [⟨⟨10, "manager"⟩, 1, StepStatus.pending, "", none⟩,
            ⟨⟨11, "manager"⟩, 2, StepStatus.pending, "", none⟩] }
      specOnlyRules 10 "ok" 5 = .ok
      { soloExpense with
          approvalFlow := [⟨⟨10, "manager"⟩, 1, StepStatus.approved, "ok", some 5⟩,
            ⟨⟨11, "manager"⟩, 2, StepStatus.pending, "", none⟩],
          approvalHistory := [⟨10, "approved", "ok", 5⟩],
          currentApprover := some 11 } ∧
    ExpStatus.pending = ExpStatus.pending ∧
    (⟨⟨11, "manager"⟩, 2, StepStatus.pending, "", none⟩ : ApprovalStep) ∈
      [⟨⟨10, "manager"⟩, 1, StepStatus.approved, "ok", some 5⟩,
        (⟨⟨11, "manager"⟩, 2, StepStatus.pending, "", none⟩ : ApprovalStep)] ∧
    StepStatus.pending = StepStatus.pending ∧ 1 < 2 ∧
    (∀ f ∈ [⟨⟨10, "manager"⟩, 1, StepStatus.approved, "ok", some 5⟩,
        (⟨⟨11, "manager"⟩, 2, StepStatus.pending, "", none⟩ : ApprovalStep)],
      f.status = StepStatus.pending → 1 < f.order → 2 ≤ f.order) := by
  have h := approve_advances_to_next
    { soloExpense with
        approvalFlow := [⟨⟨10, "manager"⟩, 1, StepStatus.pending, "", none⟩,
          ⟨⟨11, "manager"⟩, 2, StepStatus.pending, "", none⟩] }
    specOnlyRules 10 "ok" 5
    ⟨⟨10, "manager"⟩, 1, StepStatus.pending, "", none⟩
    ⟨⟨11, "manager"⟩, 2, StepStatus.pending, "", none⟩
    [⟨⟨10, "manager"⟩, 1, StepStatus.approved, "ok", some 5⟩,
      ⟨⟨11, "manager"⟩, 2, StepStatus.pending, "", none⟩]
    (by decide) rfl rfl rfl (by decide) rfl
  exact h

/-! ## The currentApprover invariant -/

/-- No pending step remains in the flow. -/
def NoPending (flow : List ApprovalStep) : Prop :=
  ∀ f ∈ flow, f.status ≠ StepStatus.pending

/-- Approver `a` owns a pending step `s` of minimal order: every other
pending step has strictly greater order. -/
def CurrentOk (flow : List ApprovalStep) (a : Nat) : Prop :=
  ∃ s, s ∈ flow ∧ s.approver.id = a ∧ s.status = StepStatus.pending ∧
    ∀ f ∈ flow, f.status = StepStatus.pending → f = s ∨ s.order < f.order

/-- Structural facts of a freshly built chain: distinct approvers,
strictly increasing orders, all steps pending, and the current approver
(when set) owning the minimal pending step. -/
def GoodChain (flow : List ApprovalStep) (cur : Option Nat) : Prop :=
  (approverIds flow).Nodup ∧
  flow.Pairwise (fun f g => f.order < g.order) ∧
  (∀ f ∈ flow, f.status = StepStatus.pending) ∧
  (∀ a, cur = some a → CurrentOk flow a)

/-- The state invariant maintained by create/approve/reject: distinct
approvers, sorted orders, terminal states have no current approver, and a
non-null current approver implies a pending expense whose flow either
grants that approver the minimal pending step or has no pending step left
(the stalled exhaustion states). -/
def Inv (e : Expense) : Prop :=
  (approverIds e.approvalFlow).Nodup ∧
  e.approvalFlow.Pairwise (fun f g => f.order < g.order) ∧
  ((e.status = ExpStatus.approved ∨ e.status = ExpStatus.rejected) →
    e.currentApprover = none) ∧
  (∀ a, e.currentApprover = some a →
    e.status = ExpStatus.pending ∧
      (CurrentOk e.approvalFlow a ∨ NoPending e.approvalFlow))

theorem goodChain_nil : GoodChain [] none := by
  refine ⟨by simp [approverIds], by simp, by simp, ?_⟩
  intro a ha
  cases ha

theorem goodChain_one (u : UserRef) :
    GoodChain [⟨u, 1, StepStatus.pending, "", none⟩] (some u.id) := by
  refine ⟨by simp [approverIds], by simp, by simp, ?_⟩
  intro a ha
  obtain rfl : u.id = a := by injection ha
  exact ⟨⟨u, 1, StepStatus.pending, "", none⟩, by simp, rfl, rfl,
    fun f hf _ => Or.inl (by simpa using hf)⟩

theorem goodChain_two (u v : UserRef) (huv : u.id ≠ v.id) :
    GoodChain [⟨u, 1, StepStatus.pending, "", none⟩,
               ⟨v, 2, StepStatus.pending, "", none⟩] (some u.id) := by
  refine ⟨by simp [approverIds, huv], by simp, by simp, ?_⟩
  intro a ha
  obtain rfl : u.id = a := by injection ha
  refine ⟨⟨u, 1, StepStatus.pending, "", none⟩, by simp, rfl, rfl, ?_⟩
  intro f hf _
  rcases List.mem_cons.mp hf with rfl | hf2
  · exact Or.inl rfl
  · right
    have : f = ⟨v, 2, StepStatus.pending, "", none⟩ := by simpa using hf2
    rw [this]
    simp

theorem goodChain_three (u v w : UserRef) (huv : u.id ≠ v.id)
    (huw : u.id ≠ w.id) (hvw : v.id ≠ w.id) :
    GoodChain [⟨u, 1, StepStatus.pending, "", none⟩,
               ⟨v, 2, StepStatus.pending, "", none⟩,
               ⟨w, 3, StepStatus.pending, "", none⟩] (some u.id) := by
  refine ⟨by simp [approverIds, huv, huw, hvw], by simp, by simp, ?_⟩
  intro a ha
  obtain rfl : u.id = a := by injection ha
  refine ⟨⟨u, 1, StepStatus.pending, "", none⟩, by simp, rfl, rfl, ?_⟩
  intro f hf _
  rcases List.mem_cons.mp hf with rfl | hf2
  · exact Or.inl rfl
  · right
    rcases List.mem_cons.mp hf2 with rfl | hf3
    · simp
    · have : f = ⟨w, 3, StepStatus.pending, "", none⟩ := by simpa using hf3
      rw [this]
      simp

theorem dirUser_eq_of_id_eq {users : List DirUser}
    (hids : (users.map DirUser.id).Nodup) {u v : DirUser}
    (hu : u ∈ users) (hv : v ∈ users) (h : u.id = v.id) : u = v :=
  List.inj_on_of_nodup_map hids hu hv h

theorem financeManager_ne_admin {users : List DirUser}
    (hids : (users.map DirUser.id).Nodup) {c c' : Nat} {fm d : DirUser}
    (hfm : findFinanceManager users c = some fm) (hd : findAdmin users c' = some d) :
    fm.id ≠ d.id := by
  intro hid
  have h1 := List.find?_some hfm
  have h2 := List.find?_some hd
  have heq := dirUser_eq_of_id_eq hids (List.mem_of_find?_eq_some hfm)
    (List.mem_of_find?_eq_some hd) hid
  subst heq
  simp only [Bool.and_eq_true, beq_iff_eq] at h1 h2
  rw [h2.2] at h1
  exact absurd h1.1.2 (by decide)

theorem addThresholdSteps_good (users : List DirUser) (companyId : Nat)
    (settings : CompanySettings) (amt : Rat) (flow1 : List ApprovalStep)
    (cur1 : Option Nat)
    (hids : (users.map DirUser.id).Nodup)
    (hshape : (flow1 = [] ∧ cur1 = none) ∨
      (∃ a r, flow1 = [⟨⟨a, r⟩, 1, StepStatus.pending, "", none⟩] ∧ cur1 = some a)) :
    GoodChain (addThresholdSteps users companyId settings amt flow1 cur1).1
      (addThresholdSteps users companyId settings amt flow1 cur1).2 := by
  rcases hshape with ⟨hf, hc⟩ | ⟨a, r, hf, hc⟩ <;> subst hf <;> subst hc <;>
    unfold addThresholdSteps
  · -- stage 1 produced nothing
    by_cases hgef : amt ≥ settings.thresholds.financeApproval
    · rcases hfm : findFinanceManager users companyId with _ | fm
      · by_cases hged : amt ≥ settings.thresholds.directorApproval
        · rcases hd : findAdmin users companyId with _ | d
          · simp [hgef, hfm, hged, hd]
            exact goodChain_nil
          · simp [hgef, hfm, hged, hd]
            exact goodChain_one ⟨d.id, d.role⟩
        · rcases hd2 : findAdmin users companyId with _ | ad
          · simp [hgef, hfm, hged, hd2]
            exact goodChain_nil
          · simp [hgef, hfm, hged, hd2]
            exact goodChain_one ⟨ad.id, ad.role⟩
      · -- finance pushed at order 1
        by_cases hged : amt ≥ settings.thresholds.directorApproval
        · rcases hd : findAdmin users companyId with _ | d
          · simp [hgef, hfm, hged, hd]
            exact goodChain_one ⟨fm.id, fm.role⟩
          · have hne : fm.id ≠ d.id := financeManager_ne_admin hids hfm hd
            simp [hgef, hfm, hged, hd, bne_iff_ne, hne, hne.symm]
            exact goodChain_two ⟨fm.id, fm.role⟩ ⟨d.id, d.role⟩ hne
        · simp [hgef, hfm, hged]
          exact goodChain_one ⟨fm.id, fm.role⟩
    · by_cases hged : amt ≥ settings.thresholds.directorApproval
      · rcases hd : findAdmin users companyId with _ | d
        · simp [hgef, hged, hd]
          exact goodChain_nil
        · simp [hgef, hged, hd]
          exact goodChain_one ⟨d.id, d.role⟩
      · rcases hd2 : findAdmin users companyId with _ | ad
        · simp [hgef, hged, hd2]
          exact goodChain_nil
        · simp [hgef, hged, hd2]
          exact goodChain_one ⟨ad.id, ad.role⟩
  · -- stage 1 produced the manager step ⟨⟨a, r⟩, 1⟩
    by_cases hgef : amt ≥ settings.thresholds.financeApproval
    · rcases hfm : findFinanceManager users companyId with _ | fm
      · by_cases hged : amt ≥ settings.thresholds.directorApproval
        · rcases hd : findAdmin users companyId with _ | d
          · simp [hgef, hfm, hged, hd]
            exact goodChain_one ⟨a, r⟩
          · by_cases hgd : d.id = a
            · simp [hgef, hfm, hged, hd, hgd]
              exact goodChain_one ⟨a, r⟩
            · simp [hgef, hfm, hged, hd, bne_iff_ne, hgd]
              exact goodChain_two ⟨a, r⟩ ⟨d.id, d.role⟩ (Ne.symm hgd)
        · simp [hgef, hfm, hged]
          exact goodChain_one ⟨a, r⟩
      · by_cases hg : fm.id = a
        · -- finance candidate is the manager: skipped
          by_cases hged : amt ≥ settings.thresholds.directorApproval
          · rcases hd : findAdmin users companyId with _ | d
            · simp [hgef, hfm, hg, hged, hd]
              exact goodChain_one ⟨a, r⟩
            · by_cases hgd : d.id = a
              · simp [hgef, hfm, hg, hged, hd, hgd]
                exact goodChain_one ⟨a, r⟩
              · simp [hgef, hfm, hg, hged, hd, bne_iff_ne, hgd]
                exact goodChain_two ⟨a, r⟩ ⟨d.id, d.role⟩ (Ne.symm hgd)
          · simp [hgef, hfm, hg, hged]
            exact goodChain_one ⟨a, r⟩
        · -- finance pushed at order 2
          by_cases hged : amt ≥ settings.thresholds.directorApproval
          · rcases hd : findAdmin users companyId with _ | d
            · simp [hgef, hfm, bne_iff_ne, hg, hged, hd]
              exact goodChain_two ⟨a, r⟩ ⟨fm.id, fm.role⟩ (Ne.symm hg)
            · by_cases hgd : d.id = a
              · simp [hgef, hfm, bne_iff_ne, hg, hged, hd, hgd]
                exact goodChain_two ⟨a, r⟩ ⟨fm.id, fm.role⟩ (Ne.symm hg)
              · have hne : fm.id ≠ d.id := financeManager_ne_admin hids hfm hd
                simp [hgef, hfm, bne_iff_ne, hg, hged, hd, hgd]
                exact goodChain_three ⟨a, r⟩ ⟨fm.id, fm.role⟩ ⟨d.id, d.role⟩
                  (Ne.symm hg) (Ne.symm hgd) hne
          · simp [hgef, hfm, bne_iff_ne, hg, hged]
            exact goodChain_two ⟨a, r⟩ ⟨fm.id, fm.role⟩ (Ne.symm hg)
    · by_cases hged : amt ≥ settings.thresholds.directorApproval
      · rcases hd : findAdmin users companyId with _ | d
        · simp [hgef, hged, hd]
          exact goodChain_one ⟨a, r⟩
        · by_cases hgd : d.id = a
          · simp [hgef, hged, hd, hgd]
            exact goodChain_one ⟨a, r⟩
          · simp [hgef, hged, hd, bne_iff_ne, hgd]
            exact goodChain_two ⟨a, r⟩ ⟨d.id, d.role⟩ (Ne.symm hgd)
      · simp [hgef, hged]
        exact goodChain_one ⟨a, r⟩

theorem setupApprovalFlow_good (users : List DirUser) (user : DirUser)
    (companyId : Nat) (settings : CompanySettings) (amt : Rat)
    (hids : (users.map DirUser.id).Nodup) :
    GoodChain (setupApprovalFlow users user companyId settings amt).1
      (setupApprovalFlow users user companyId settings amt).2 := by
  unfold setupApprovalFlow
  apply addThresholdSteps_good _ _ _ _ _ _ hids
  rcases hm : user.manager with _ | mid
  · simp [hm]
  · by_cases him : user.isManagerApprover
    · rcases hfb : findById users mid with _ | m
      · simp [hm, him, hfb]
      · exact Or.inr ⟨m.id, m.role, by simp [hm, him, hfb], by simp [hm, him, hfb]⟩
    · simp [hm, him]

theorem nodup_decomp_id {l1 l2 : List ApprovalStep} {s : ApprovalStep}
    (h : (approverIds (l1 ++ s :: l2)).Nodup) :
    (∀ f ∈ l1, f.approver.id ≠ s.approver.id) ∧
    (∀ f ∈ l2, f.approver.id ≠ s.approver.id) := by
  unfold approverIds at h
  rw [List.map_append, List.map_cons, List.nodup_append] at h
  obtain ⟨-, h2, hdisj⟩ := h
  constructor
  · intro f hf heq
    exact hdisj (List.mem_map_of_mem _ hf) (heq ▸ List.mem_cons_self _ _)
  · intro f hf heq
    rw [List.nodup_cons] at h2
    exact h2.1 (heq ▸ List.mem_map_of_mem _ hf)

theorem inv_preserved_reject {e : Expense} {u : Nat} {c : String} {t : Nat}
    {e' : Expense} (hinv : Inv e)
    (hstep : rejectExpense e u c t = .ok e') : Inv e' := by
  unfold rejectExpense at hstep
  by_cases hc : c.isEmpty
  · rw [if_pos hc] at hstep
    cases hstep
  · rw [if_neg hc] at hstep
    cases hca : e.currentApprover with
    | none => rw [hca] at hstep; cases hstep
    | some v =>
      simp only [hca] at hstep
      by_cases hvu : (v == u) = true
      · rw [if_pos hvu] at hstep
        cases hupd : updateFirst
            (fun f => f.approver.id == u && f.status == StepStatus.pending)
            (fun f => { f with status := StepStatus.rejected, comments := c,
                               timestamp := some t }) e.approvalFlow with
        | none => rw [hupd] at hstep; cases hstep
        | some pr =>
          obtain ⟨s, flow'⟩ := pr
          simp only [hupd] at hstep
          cases hstep
          have hmapid : flow'.map (fun f => f.approver.id) =
              e.approvalFlow.map (fun f => f.approver.id) :=
            updateFirst_map_eq hupd _ (fun f => rfl)
          have hmapord : flow'.map (fun f => f.order) =
              e.approvalFlow.map (fun f => f.order) :=
            updateFirst_map_eq hupd _ (fun f => rfl)
          refine ⟨?_, ?_, fun _ => rfl, ?_⟩
          · show (approverIds flow').Nodup
            unfold approverIds
            rw [hmapid]
            exact hinv.1
          · show flow'.Pairwise (fun f g => f.order < g.order)
            have h1 : (e.approvalFlow.map (fun f => f.order)).Pairwise (· < ·) :=
              (List.pairwise_map).mpr hinv.2.1
            rw [← hmapord] at h1
            exact (List.pairwise_map).mp h1
          · intro a ha
            cases ha
      · rw [if_neg hvu] at hstep
        cases hstep

theorem inv_preserved_approve {e : Expense} {settings : ApprovalRules} {u : Nat}
    {c : String} {t : Nat} {e' : Expense} (hinv : Inv e)
    (hstep : approveExpense e settings u c t = .ok e') : Inv e' := by
  obtain ⟨hnd, hpw, _hterm, hcur⟩ := hinv
  unfold approveExpense at hstep
  cases hca : e.currentApprover with
  | none => rw [hca] at hstep; cases hstep
  | some v =>
    simp only [hca] at hstep
    by_cases hvu : (v == u) = true
    · rw [if_pos hvu] at hstep
      have hveq : v = u := by simpa using hvu
      rw [hveq] at hca
      cases hupd : updateFirst
          (fun f => f.approver.id == u && f.status == StepStatus.pending)
          (fun f => { f with status := StepStatus.approved, comments := c,
                             timestamp := some t }) e.approvalFlow with
      | none => rw [hupd] at hstep; cases hstep
      | some pr =>
        obtain ⟨s, flow'⟩ := pr
        simp only [hupd] at hstep
        have hmapid : flow'.map (fun f => f.approver.id) =
            e.approvalFlow.map (fun f => f.approver.id) :=
          updateFirst_map_eq hupd _ (fun f => rfl)
        have hmapord : flow'.map (fun f => f.order) =
            e.approvalFlow.map (fun f => f.order) :=
          updateFirst_map_eq hupd _ (fun f => rfl)
        have hnd' : (approverIds flow').Nodup := by
          unfold approverIds
          rw [hmapid]
          exact hnd
        have hpw' : flow'.Pairwise (fun f g => f.order < g.order) := by
          have h1 := (List.pairwise_map).mpr hpw
          rw [← hmapord] at h1
          exact (List.pairwise_map).mp h1
        obtain ⟨l1, l2, hfl, hfl', hl1, hps⟩ := updateFirst_eq_some hupd
        rw [Bool.and_eq_true, beq_iff_eq, beq_iff_eq] at hps
        obtain ⟨hsid, hsp⟩ := hps
        obtain ⟨hpend, hdisj⟩ := hcur u hca
        have hmin : ∀ f ∈ e.approvalFlow, f.status = StepStatus.pending →
            f = s ∨ s.order < f.order := by
          rcases hdisj with ⟨s0, hs0m, hs0id, hs0p, hs0min⟩ | hnp
          · have hsmem : s ∈ e.approvalFlow := by rw [hfl]; simp
            have heq : s = s0 :=
              eq_of_mem_of_approverId_eq hnd hsmem hs0m (by rw [hsid, hs0id])
            subst heq
            exact hs0min
          · exact absurd hsp (hnp s (by rw [hfl]; simp))
        have hndec := nodup_decomp_id (hfl ▸ hnd)
        have hkey : ∀ f ∈ flow', f.status = StepStatus.pending → s.order < f.order := by
          intro f hf hp
          rw [hfl'] at hf
          rcases List.mem_append.mp hf with hf1 | hf2
          · have hfo : f ∈ e.approvalFlow := by
              rw [hfl]; exact List.mem_append.mpr (Or.inl hf1)
            rcases hmin f hfo hp with rfl | h
            · exact absurd rfl (hndec.1 _ hf1)
            · exact h
          · rcases List.mem_cons.mp hf2 with rfl | hf3
            · simp at hp
            · have hfo : f ∈ e.approvalFlow := by
                rw [hfl]
                exact List.mem_append.mpr (Or.inr (List.mem_cons_of_mem _ hf3))
              rcases hmin f hfo hp with rfl | h
              · exact absurd rfl (hndec.2 _ hf3)
              · exact h
        by_cases hcrit : checkApprovalCriteria flow' settings = true
        · rw [if_pos hcrit] at hstep
          cases hstep
          exact ⟨hnd', hpw', fun _ => rfl, fun a ha => by cases ha⟩
        · rw [if_neg hcrit] at hstep
          cases hfind : flow'.find? (fun f => f.status == StepStatus.pending &&
              f.order > s.order) with
          | some nxt =>
            simp only [hfind] at hstep
            cases hstep
            refine ⟨hnd', hpw', ?_, ?_⟩
            · intro htm
              exfalso
              rcases htm with h | h <;> cases hpend.symm.trans h
            · intro a ha
              have haa : nxt.approver.id = a := by injection ha
              subst haa
              refine ⟨hpend, Or.inl ?_⟩
              obtain ⟨A, B, hAB, hA, hpnxt⟩ := find?_eq_some_decomp hfind
              rw [Bool.and_eq_true, beq_iff_eq, decide_eq_true_eq] at hpnxt
              refine ⟨nxt, by rw [hAB]; simp, rfl, hpnxt.1, ?_⟩
              intro f hf hp
              by_cases hfe : f = nxt
              · exact Or.inl hfe
              · right
                have hpred : (f.status == StepStatus.pending &&
                    decide (f.order > s.order)) = true := by
                  simp [hp, hkey f hf hp]
                rw [hAB] at hf
                rcases List.mem_append.mp hf with hf1 | hf2
                · rw [hA f hf1] at hpred
                  cases hpred
                · rcases List.mem_cons.mp hf2 with rfl | hf3
                  · exact absurd rfl hfe
                  · have hpairtl := (List.pairwise_append.mp (hAB ▸ hpw')).2.1
                    exact (List.pairwise_cons.mp hpairtl).1 f hf3
          | none =>
            simp only [hfind] at hstep
            have hnopend : NoPending flow' := by
              intro f hf hp
              have hpred : (f.status == StepStatus.pending &&
                  decide (f.order > s.order)) = true := by
                simp [hp, hkey f hf hp]
              rw [List.find?_eq_none] at hfind
              exact absurd hpred (by simpa using hfind f hf)
            by_cases hA : (settings.percentageRule.enabled &&
                decide (getApprovalPercentage flow' ≥
                  settings.percentageRule.percentage)) = true
            · rw [if_pos hA] at hstep
              cases hstep
              exact ⟨hnd', hpw', fun _ => rfl, fun a ha => by cases ha⟩
            · rw [if_neg hA] at hstep
              by_cases hS : settings.specificApproverRule.enabled = true
              · rw [if_pos hS] at hstep
                by_cases hAny : (flow'.any fun f =>
                    f.approver.role == settings.specificApproverRule.approverRole &&
                    f.status == StepStatus.approved) = true
                · rw [if_pos hAny] at hstep
                  cases hstep
                  exact ⟨hnd', hpw', fun _ => rfl, fun a ha => by cases ha⟩
                · rw [if_neg hAny] at hstep
                  cases hstep
                  refine ⟨hnd', hpw', ?_, ?_⟩
                  · intro htm
                    exfalso
                    rcases htm with h | h <;> cases hpend.symm.trans h
                  · intro a ha
                    exact ⟨hpend, Or.inr hnopend⟩
              · rw [if_neg hS] at hstep
                cases hstep
                exact ⟨hnd', hpw', fun _ => rfl, fun a ha => by cases ha⟩
    · rw [if_neg hvu] at hstep
      cases hstep

theorem inv_of_reachable {e : Expense} (h : Reachable e) : Inv e := by
  induction h with
  | create users user companyId settings amount convertedAmount category description
      expenseDate hids =>
    obtain ⟨h1, h2, h3, h4⟩ :=
      setupApprovalFlow_good users user companyId settings convertedAmount hids
    refine ⟨h1, h2, ?_, ?_⟩
    · intro htm
      exfalso
      rcases htm with h | h <;> cases h
    · intro a ha
      exact ⟨rfl, Or.inl (h4 a ha)⟩
  | approve e settings userId comments now e' he hstep ih =>
    exact inv_preserved_approve ih hstep
  | reject e userId comments now e' he hstep ih =>
    exact inv_preserved_reject ih hstep

/-- C6 corrected: in every reachable expense state a terminal status
implies `currentApprover = null`, and a non-null `currentApprover` equals
the approver of exactly one Pending step — except in the stalled
chain-exhaustion states (reachable when the specific-approver rule is
enabled but unmet on exhaustion), where no Pending step remains at all and
`currentApprover` still names the approver who just acted. -/
theorem reachable_currentApprover_invariant (e : Expense) (h : Reachable e) :
    ((e.status = ExpStatus.approved ∨ e.status = ExpStatus.rejected) →
      e.currentApprover = none) ∧
    (∀ a, e.currentApprover = some a →
      (∃ s, s ∈ e.approvalFlow ∧ s.approver.id = a ∧
        s.status = StepStatus.pending ∧
        ∀ f ∈ e.approvalFlow, f.approver.id = a →
          f.status = StepStatus.pending → f = s) ∨
      (∀ f ∈ e.approvalFlow, f.status ≠ StepStatus.pending)) := by
  obtain ⟨hnd, hpw, hterm, hcur⟩ := inv_of_reachable h
  refine ⟨hterm, ?_⟩
  intro a ha
  rcases (hcur a ha).2 with ⟨s, hm, hid, hp, hmin⟩ | hnp
  · left
    refine ⟨s, hm, hid, hp, ?_⟩
    intro f hf hfid hfp
    exact eq_of_mem_of_approverId_eq hnd hf hm (by rw [hfid, hid])
  · right
    exact hnp

/-- Witness for C6 (amended): the invariant evaluated on the freshly
created `soloExpense`, whose reachability comes from the create rule. -/
theorem reachable_currentApprover_invariant_witness :
    ((soloExpense.status = ExpStatus.approved ∨
        soloExpense.status = ExpStatus.rejected) →
      soloExpense.currentApprover = none) ∧
    (∀ a, soloExpense.currentApprover = some a →
      (∃ s, s ∈ soloExpense.approvalFlow ∧ s.approver.id = a ∧
        s.status = StepStatus.pending ∧
        ∀ f ∈ soloExpense.approvalFlow, f.approver.id = a →
          f.status = StepStatus.pending → f = s) ∨
      (∀ f ∈ soloExpense.approvalFlow, f.status ≠ StepStatus.pending)) :=
  reachable_currentApprover_invariant soloExpense
    (Reachable.create soloDir soloEmployee 7 ⟨specOnlyRules, defaultThresholds⟩
      100 100 "meals" "d" 0 (by decide))

/-- C6 counterexample: the reachable stalled state `stuckExpense` has
`currentApprover = some 10`, yet no step of its flow is a Pending step of
approver 10 (its only step is already Approved), so `currentApprover` does
not equal the approver of exactly one Pending step. -/
theorem stuck_state_violates_invariant_cex :
    Reachable stuckExpense ∧
    stuckExpense.currentApprover = some 10 ∧
    (∀ s ∈ stuckExpense.approvalFlow,
      ¬(s.approver.id = 10 ∧ s.status = StepStatus.pending)) := by
  refine ⟨?_, rfl, by decide⟩
  exact Reachable.approve soloExpense specOnlyRules 10 "ok" 5 stuckExpense
    (Reachable.create soloDir soloEmployee 7 ⟨specOnlyRules, defaultThresholds⟩
      100 100 "meals" "d" 0 (by decide)) rfl

/-- Witness for C3: with no rule enabled, `checkApprovalCriteria` is false
on the concrete `soloExpense` flow, by the no-enabled-rule clause. -/
theorem checkApprovalCriteria_or_composition_witness :
    checkApprovalCriteria soloExpense.approvalFlow noRules = false :=
  (checkApprovalCriteria_or_composition soloExpense.approvalFlow noRules).2 rfl rfl rfl

/-- Witness for C9: appending one Approved step to the concrete
`soloExpense` flow does not decrease the approval percentage. -/
theorem approvalPercentage_monotone_witness :
    getApprovalPercentage soloExpense.approvalFlow ≤
      getApprovalPercentage (soloExpense.approvalFlow ++
        [⟨⟨10, "manager"⟩, 2, StepStatus.approved, "", none⟩]) :=
  approvalPercentage_monotone.2.2 soloExpense.approvalFlow
    ⟨⟨10, "manager"⟩, 2, StepStatus.approved, "", none⟩ rfl

end ExpenseSystem
